import Mathlib

/-!
Shallow embedding of the DNS codec and forwarding resolver from
`src/app/main.go` (package main).

Conventions of the embedding:
* Go byte buffers are `List Nat`, each element a byte value (< 256 wherever
  the Go program can produce it).
* Go strings are `List Nat` (Go strings are byte slices; `strings.Split`
  and `strings.Join` are modelled on byte lists).
* A Go slice access or index that would panic (out of bounds) is modelled
  by `Option`: `none` means the Go program crashes at that point.
  The parsing functions in the source return no `error` values at all, so
  `none` never models a Go error return, only a runtime panic (or, for
  `parseLabels`, exhaustion of the pointer-recursion fuel, which models
  non-termination of the unbounded Go recursion).
* `binary.BigEndian.Uint16/Uint32/PutUint16/PutUint32` are Go standard
  library functions; they are modelled arithmetically per their documented
  big-endian semantics.
-/

/-- Models `binary.BigEndian.Uint16(buf[i:i+2])` applied to two byte values:
big-endian 16-bit read. -/
def getU16 (b0 b1 : Nat) : Nat := b0 * 256 + b1

/-- Models `binary.BigEndian.Uint32` applied to four byte values:
big-endian 32-bit read. -/
def getU32 (b0 b1 b2 b3 : Nat) : Nat :=
  ((b0 * 256 + b1) * 256 + b2) * 256 + b3

/-- Models `binary.BigEndian.PutUint16(buf, v)`: emits `byte(v>>8), byte(v)`. -/
def putU16 (v : Nat) : List Nat := [v / 256 % 256, v % 256]

/-- Models `binary.BigEndian.PutUint32(buf, v)`: four big-endian bytes. -/
def putU32 (v : Nat) : List Nat :=
  [v / 16777216 % 256, v / 65536 % 256, v / 256 % 256, v % 256]

/-- Models the Go slice expression `buf[s : s+n]`: `none` when the slice
bounds exceed the buffer (a Go panic). -/
def slice? (buf : List Nat) (s n : Nat) : Option (List Nat) :=
  if s + n ≤ buf.length then some ((buf.drop s).take n) else none

/-- The `Header` struct of `main.go`.  Field types in Go are `uint16` for
`ID` and the four counts and `byte` for the bit-fields; here all are `Nat`,
with the Go type bounds recovered by the well-formedness predicate. -/
structure Header where
  ID : Nat
  QR : Nat
  OpCode : Nat
  AuthorativeAnswer : Nat
  Truncation : Nat
  RecursionDesired : Nat
  RecursionAvailable : Nat
  Reserved : Nat
  ResponseCode : Nat
  QuestionCount : Nat
  AnswerRecordCount : Nat
  AuthorativeRecordCount : Nat
  AdditionalRecordCount : Nat
deriving DecidableEq, Repr

/-- The `Question` struct of `main.go` (`Name string; Type, Class uint16`). -/
structure Question where
  Name : List Nat
  «Type» : Nat
  Class : Nat
deriving DecidableEq, Repr

/-- The `Answer` struct of `main.go`. -/
structure Answer where
  Name : List Nat
  «Type» : Nat
  Class : Nat
  TTL : Nat
  RDLength : Nat
  RData : List Nat
deriving DecidableEq, Repr

/-- The `Message` struct of `main.go`.  The Go struct stores pointers; the
embedding stores values.  `Authority` and `Additional` are `byte` fields the
source never assigns (always zero). -/
structure Message where
  Header : Header
  Question : List Question
  Answer : List Answer
  Authority : Nat
  Additional : Nat
deriving DecidableEq, Repr

/-- Models `strings.Split(s, ".")` on a byte-list string (dot = byte 46).
`strings.Split` of the empty string yields one empty field. -/
def splitOnDot : List Nat → List (List Nat)
  | [] => [[]]
  | c :: rest =>
    if c = 46 then [] :: splitOnDot rest
    else
      match splitOnDot rest with
      | [] => [[c]]
      | l :: ls => (c :: l) :: ls

/-- Models `strings.Join(labels, ".")` on byte-list strings. -/
def joinDot : List (List Nat) → List Nat
  | [] => []
  | [l] => l
  | l :: ls => l ++ 46 :: joinDot ls

/-- Models `(h *Header) ToBytes()`: 12 bytes; byte 2 and byte 3 pack the
bit-fields exactly as the Go shift-and-or expressions do (Go `byte`
arithmetic wraps modulo 256, hence the `% 256` on every shift). -/
def Header.ToBytes (h : Header) : List Nat :=
  putU16 h.ID ++
  [(h.QR <<< 7) % 256 ||| (h.OpCode <<< 3) % 256 ||| (h.AuthorativeAnswer <<< 2) % 256 |||
     (h.Truncation <<< 1) % 256 ||| h.RecursionDesired,
   (h.RecursionAvailable <<< 7) % 256 ||| (h.Reserved <<< 4) % 256 ||| h.ResponseCode] ++
  putU16 h.QuestionCount ++ putU16 h.AnswerRecordCount ++
  putU16 h.AuthorativeRecordCount ++ putU16 h.AdditionalRecordCount

/-- The length-prefixed label emission shared by `Question.ToBytes` and
`Answer.ToBytes`: for each label of the split name, `byte(len(label))`
followed by the label's bytes (Go's `byte` conversion truncates mod 256). -/
def labelBytes (labels : List (List Nat)) : List Nat :=
  labels.flatMap fun label => label.length % 256 :: label

/-- Models `(q *Question) ToBytes()`: split the name on dots, emit the
length-prefixed labels, a zero terminator, then Type and Class big-endian. -/
def Question.ToBytes (q : Question) : List Nat :=
  labelBytes (splitOnDot q.Name) ++ [0] ++ putU16 q.«Type» ++ putU16 q.Class

/-- Models `(a *Answer) ToBytes()`: name labels, zero terminator, Type,
Class, TTL, RDLength, then the RData bytes verbatim. -/
def Answer.ToBytes (a : Answer) : List Nat :=
  labelBytes (splitOnDot a.Name) ++ [0] ++ putU16 a.«Type» ++ putU16 a.Class ++
  putU32 a.TTL ++ putU16 a.RDLength ++ a.RData

/-- Models `parseHeader(buf)`.  The Go function performs no bounds check;
on a buffer shorter than 12 bytes it panics (slice out of range), which the
embedding renders as `none`. -/
def parseHeader (buf : List Nat) : Option Header := do
  let b0 ← buf[0]?
  let b1 ← buf[1]?
  let b2 ← buf[2]?
  let b3 ← buf[3]?
  let b4 ← buf[4]?
  let b5 ← buf[5]?
  let b6 ← buf[6]?
  let b7 ← buf[7]?
  let b8 ← buf[8]?
  let b9 ← buf[9]?
  let b10 ← buf[10]?
  let b11 ← buf[11]?
  pure { ID := getU16 b0 b1
         QR := b2 >>> 7
         OpCode := b2 >>> 3 &&& 0x0F
         AuthorativeAnswer := b2 >>> 2 &&& 0x01
         Truncation := b2 >>> 1 &&& 0x01
         RecursionDesired := b2 &&& 0x01
         RecursionAvailable := b3 >>> 7
         Reserved := b3 >>> 4 &&& 0x07
         ResponseCode := b3 &&& 0x0F
         QuestionCount := getU16 b4 b5
         AnswerRecordCount := getU16 b6 b7
         AuthorativeRecordCount := getU16 b8 b9
         AdditionalRecordCount := getU16 b10 b11 }

/-- Models `parseLabels(buf, start)`.  The Go loop reads length-prefixed
labels until a zero byte; a length byte `>= 0xC0` is a compression pointer
whose low 14 bits are an absolute offset, followed recursively, after which
the function returns with next offset `i + 2` (the recursive next offset is
discarded).  The accumulating loop is rendered as structural recursion: a
decoded label is consed onto the labels of the rest of the name.  The Go
loop and recursion are unbounded; `fuel` bounds the number of steps
(labels read plus pointers followed), so every terminating Go execution is
reproduced by every sufficiently large fuel, and a result of `none` for
ALL fuels means the Go code never returns from this call.  For a fixed
fuel, `none` is either fuel exhaustion or an index panic, at exactly the
point where Go would panic. -/
def parseLabels (buf : List Nat) : Nat → Nat → Option (List (List Nat) × Nat)
  | _, 0 => none
  | i, fuel + 1 =>
    match buf[i]? with
    | none => none
    | some b =>
      if b = 0 then some ([], i + 1)
      else if 0xC0 ≤ b then
        match buf[i+1]? with
        | none => none
        | some b2 =>
          match parseLabels buf (getU16 b b2 &&& 0x3FFF) fuel with
          | none => none
          | some (ls, _) => some (ls, i + 2)
      else
        match slice? buf (i + 1) b with
        | none => none
        | some label =>
          match parseLabels buf (i + b + 1) fuel with
          | none => none
          | some (ls, j) => some (label :: ls, j)

/-- Models `parseQuestion(buf, start)`: name labels joined with dots, then
Type and Class read big-endian; returns the question and `i + 4`. -/
def parseQuestion (buf : List Nat) (start fuel : Nat) : Option (Question × Nat) := do
  let (labels, i) ← parseLabels buf start fuel
  let t0 ← buf[i]?
  let t1 ← buf[i+1]?
  let c0 ← buf[i+2]?
  let c1 ← buf[i+3]?
  pure ({ Name := joinDot labels, «Type» := getU16 t0 t1, Class := getU16 c0 c1 }, i + 4)

/-- Models `parseAnswer(buf, ansStart)`: name, Type, Class, TTL, RDLength,
then exactly `RDLength` bytes of RData (`buf[i+10 : i+10+RDLength]`).
No next offset is returned, exactly as in the source. -/
def parseAnswer (buf : List Nat) (ansStart fuel : Nat) : Option Answer := do
  let (labels, i) ← parseLabels buf ansStart fuel
  let t0 ← buf[i]?
  let t1 ← buf[i+1]?
  let c0 ← buf[i+2]?
  let c1 ← buf[i+3]?
  let l0 ← buf[i+4]?
  let l1 ← buf[i+5]?
  let l2 ← buf[i+6]?
  let l3 ← buf[i+7]?
  let r0 ← buf[i+8]?
  let r1 ← buf[i+9]?
  let rdata ← slice? buf (i + 10) (getU16 r0 r1)
  pure { Name := joinDot labels, «Type» := getU16 t0 t1, Class := getU16 c0 c1,
         TTL := getU32 l0 l1 l2 l3, RDLength := getU16 r0 r1, RData := rdata }

/-- Models the question-reading loop of `parseRequest`: `QuestionCount`
sequential calls to `parseQuestion`, the cursor following each question. -/
def parseQuestionsLoop (buf : List Nat) (fuel : Nat) : Nat → Nat → Option (List Question × Nat)
  | 0, nextStart => some ([], nextStart)
  | n + 1, nextStart => do
    let (q, s) ← parseQuestion buf nextStart fuel
    let (qs, s') ← parseQuestionsLoop buf fuel n s
    pure (q :: qs, s')

/-- Models the answer-reading loop of `parseRequest`: `AnswerRecordCount`
calls to `parseAnswer`, each at the same `nextStart` (the source never
advances the cursor between answers). -/
def parseAnswersLoop (buf : List Nat) (fuel nextStart : Nat) : Nat → Option (List Answer)
  | 0 => some []
  | n + 1 => do
    let a ← parseAnswer buf nextStart fuel
    let rest ← parseAnswersLoop buf fuel nextStart n
    pure (a :: rest)

/-- Models `parseRequest(request)`.  The Go function's only `return`
statement pairs the message with a `nil` error; the second component of the
result models that Go `error` value (always `none`, i.e. `nil`). -/
def parseRequest (request : List Nat) (fuel : Nat) : Option (Message × Option String) := do
  let header ← parseHeader request
  let (questions, nextStart) ← parseQuestionsLoop request fuel header.QuestionCount 12
  let answers ← parseAnswersLoop request fuel nextStart header.AnswerRecordCount
  pure ({ Header := header, Question := questions, Answer := answers,
          Authority := 0, Additional := 0 }, none)

/-- Models the serialization half of `queryDNS(msg, udpConn)`: header bytes
then `msg.Question[0]` bytes, written into the 10240-byte scratch buffer and
sent as `buf[:copied]`.  `none` models the panics: `msg.Question[0]` on an
empty list, or `buf[:copied]` when `copied` exceeds the buffer size. -/
def queryDNSBytes (msg : Message) : Option (List Nat) :=
  match msg.Question with
  | [] => none
  | q :: _ =>
    if 12 + q.ToBytes.length ≤ 10240 then some (msg.Header.ToBytes ++ q.ToBytes)
    else none

/-- The datagrams sent upstream by the per-question loop of
`handleConnection`: each iteration overwrites `QuestionCount := 1` and
`AnswerRecordCount := 0` on the (shared, mutated) header and forwards the
header bytes followed by that single question's bytes.  The mutated header
is threaded through the recursion exactly as the shared Go object is. -/
def forwardedRequests : Header → List Question → Option (List (List Nat))
  | _, [] => some []
  | h, q :: qs => do
    let h' := { h with QuestionCount := 1, AnswerRecordCount := 0 }
    let bytes ← queryDNSBytes { Header := h', Question := [q], Answer := [],
                                Authority := 0, Additional := 0 }
    let rest ← forwardedRequests h' qs
    some (bytes :: rest)

/-- Models the per-question loop of `handleConnection` on the success path:
for each question, mutate the shared header (`QuestionCount := 1`,
`AnswerRecordCount := 0`), send the forwarded request (panic modelled by
`queryDNSBytes`), parse the upstream reply datagram, and accumulate its
questions and answers in order.  `resps` supplies one reply datagram per
question; exhaustion models an upstream read failure (the Go code then
returns without replying).  Returns the final header state and the two
accumulator lists. -/
def resolveLoop (fuel : Nat) : Header → List Question → List (List Nat) →
    Option (Header × List Question × List Answer)
  | h, [], _ => some (h, [], [])
  | h, q :: qs, resps => do
    let h' := { h with QuestionCount := 1, AnswerRecordCount := 0 }
    let _ ← queryDNSBytes { Header := h', Question := [q], Answer := [],
                            Authority := 0, Additional := 0 }
    match resps with
    | [] => none
    | resp :: resps' => do
      let (respMsg, _) ← parseRequest resp fuel
      let (hF, qAcc, aAcc) ← resolveLoop fuel h' qs resps'
      some (hF, respMsg.Question ++ qAcc, respMsg.Answer ++ aAcc)

/-- Models the reply-assembly tail of `handleConnection` after the loop:
set `QR := 1`, `ResponseCode := 4` exactly when the (never-mutated) OpCode
is non-zero else `0`, overwrite the counts with the accumulator lengths
(Go `uint16(len(...))` truncates mod 65536), and emit header bytes followed
by every accumulated question's bytes then every accumulated answer's
bytes.  Returns the final header, the accumulators and the outbound bytes. -/
def handleSuccess (msg : Message) (resps : List (List Nat)) (fuel : Nat) :
    Option (Header × List Question × List Answer × List Nat) := do
  let (h, questions, answers) ← resolveLoop fuel msg.Header msg.Question resps
  let h2 := { h with QR := 1,
                     ResponseCode := if h.OpCode ≠ 0 then 4 else 0,
                     QuestionCount := questions.length % 65536,
                     AnswerRecordCount := answers.length % 65536 }
  some (h2, questions, answers,
        h2.ToBytes ++ questions.flatMap Question.ToBytes ++
          answers.flatMap Answer.ToBytes)

/-- The questions carried by a list of parsed reply datagrams, in arrival
order (used to state in which order `resolveLoop` accumulates). -/
def parsedQuestions (resps : List (List Nat)) (fuel : Nat) : List Question :=
  resps.flatMap fun r =>
    match parseRequest r fuel with
    | some (m, _) => m.Question
    | none => []

/-- The answers carried by a list of parsed reply datagrams, in arrival
order. -/
def parsedAnswers (resps : List (List Nat)) (fuel : Nat) : List Answer :=
  resps.flatMap fun r =>
    match parseRequest r fuel with
    | some (m, _) => m.Answer
    | none => []

/-- Well-formed header: every bit-field within its declared width, every
16-bit field below 2^16 (in Go these bounds are enforced by the field
types `byte`-packed-as-bits and `uint16`). -/
def wfHeader (h : Header) : Prop :=
  h.ID < 65536 ∧ h.QR < 2 ∧ h.OpCode < 16 ∧ h.AuthorativeAnswer < 2 ∧
  h.Truncation < 2 ∧ h.RecursionDesired < 2 ∧ h.RecursionAvailable < 2 ∧
  h.Reserved < 8 ∧ h.ResponseCode < 16 ∧ h.QuestionCount < 65536 ∧
  h.AnswerRecordCount < 65536 ∧ h.AuthorativeRecordCount < 65536 ∧
  h.AdditionalRecordCount < 65536

instance (h : Header) : Decidable (wfHeader h) := by unfold wfHeader; infer_instance

/-- Well-formed name: every dot-separated label has 1 to 63 bytes. -/
def wfName (name : List Nat) : Prop :=
  ∀ l ∈ splitOnDot name, 1 ≤ l.length ∧ l.length ≤ 63

instance (name : List Nat) : Decidable (wfName name) := by
  unfold wfName; infer_instance

/-- Well-formed question: well-formed name, 16-bit Type and Class. -/
def wfQuestion (q : Question) : Prop :=
  wfName q.Name ∧ q.«Type» < 65536 ∧ q.Class < 65536

instance (q : Question) : Decidable (wfQuestion q) := by
  unfold wfQuestion; infer_instance

/-- Well-formed resource record: well-formed name, 16-bit Type/Class/
RDLength, 32-bit TTL, and RDATA of exactly RDLENGTH bytes. -/
def wfAnswer (a : Answer) : Prop :=
  wfName a.Name ∧ a.«Type» < 65536 ∧ a.Class < 65536 ∧ a.TTL < 4294967296 ∧
  a.RDLength < 65536 ∧ a.RData.length = a.RDLength

instance (a : Answer) : Decidable (wfAnswer a) := by
  unfold wfAnswer; infer_instance

/-- A sample well-formed header for concrete evaluations. -/
def exHeader : Header :=
  { ID := 1234, QR := 1, OpCode := 5, AuthorativeAnswer := 1, Truncation := 0,
    RecursionDesired := 1, RecursionAvailable := 1, Reserved := 5, ResponseCode := 9,
    QuestionCount := 7, AnswerRecordCount := 8, AuthorativeRecordCount := 9,
    AdditionalRecordCount := 10 }

/-- A sample well-formed question; `Name` is the byte string "ab.c". -/
def exQuestion : Question := { Name := [97, 98, 46, 99], «Type» := 1, Class := 1 }

/-- A sample well-formed answer; `Name` is the byte string "ab". -/
def exAnswer : Answer :=
  { Name := [97, 98], «Type» := 1, Class := 1, TTL := 60, RDLength := 4,
    RData := [1, 2, 3, 4] }

/-- A sample inbound message: OpCode 0, one question, no answers, non-zero
authority/additional counts (to observe their pass-through). -/
def exMessage : Message :=
  { Header := { ID := 9, QR := 0, OpCode := 0, AuthorativeAnswer := 0, Truncation := 0,
                RecursionDesired := 1, RecursionAvailable := 0, Reserved := 0,
                ResponseCode := 0, QuestionCount := 1, AnswerRecordCount := 0,
                AuthorativeRecordCount := 3, AdditionalRecordCount := 4 },
    Question := [exQuestion], Answer := [], Authority := 0, Additional := 0 }

/-- A sample upstream reply datagram for `exQuestion`: header with one
question and one answer, followed by their encodings. -/
def exReply : List Nat :=
  Header.ToBytes { ID := 9, QR := 1, OpCode := 0, AuthorativeAnswer := 0, Truncation := 0,
                   RecursionDesired := 1, RecursionAvailable := 0, Reserved := 0,
                   ResponseCode := 0, QuestionCount := 1, AnswerRecordCount := 1,
                   AuthorativeRecordCount := 0, AdditionalRecordCount := 0 } ++
  Question.ToBytes exQuestion ++ Answer.ToBytes exAnswer

/-- The header of the merged reply that `handleSuccess exMessage [exReply] 3`
produces (inbound header with QR set, counts overwritten). -/
def exMergedHeader : Header :=
  { ID := 9, QR := 1, OpCode := 0, AuthorativeAnswer := 0, Truncation := 0,
    RecursionDesired := 1, RecursionAvailable := 0, Reserved := 0, ResponseCode := 0,
    QuestionCount := 1, AnswerRecordCount := 1, AuthorativeRecordCount := 3,
    AdditionalRecordCount := 4 }

/-- The forwarded-request header derived from `exHeader`. -/
def exFwdHeader : Header := { exHeader with QuestionCount := 1, AnswerRecordCount := 0 }

/-- A question whose single label has 192 bytes (the byte 'a' repeated);
its length byte collides with the compression-pointer tag. -/
def exLongLabelQuestion : Question :=
  { Name := List.replicate 192 97, «Type» := 1, Class := 1 }

/-- An all-zero 12-byte request (header only, zero counts). -/
def exEmptyRequest : List Nat := List.replicate 12 0

/-- The message parsed from `exEmptyRequest`. -/
def exEmptyMessage : Message :=
  { Header := { ID := 0, QR := 0, OpCode := 0, AuthorativeAnswer := 0, Truncation := 0,
                RecursionDesired := 0, RecursionAvailable := 0, Reserved := 0,
                ResponseCode := 0, QuestionCount := 0, AnswerRecordCount := 0,
                AuthorativeRecordCount := 0, AdditionalRecordCount := 0 },
    Question := [], Answer := [], Authority := 0, Additional := 0 }

/-! Helper lemmas about list reads, the label codec, and bit packing. -/

theorem getElem?_eq_of_drop (buf t : List Nat) (i x : Nat) (h : buf.drop i = x :: t) :
    buf[i]? = some x := by
  have := List.getElem?_drop buf i 0
  rw [h] at this
  simpa using this.symm

theorem drop_succ_of_drop (buf t : List Nat) (i x : Nat) (h : buf.drop i = x :: t) :
    buf.drop (i + 1) = t := by
  have := List.drop_drop 1 i buf
  rw [h] at this
  simpa [Nat.add_comm] using this.symm

theorem drop_add_of_drop (buf pre t : List Nat) (i : Nat) (h : buf.drop i = pre ++ t) :
    buf.drop (i + pre.length) = t := by
  have := List.drop_drop pre.length i buf
  rw [h] at this
  rw [← this, List.drop_left]

theorem slice?_of_drop (buf pre t : List Nat) (i : Nat) (ht : t ≠ [])
    (h : buf.drop i = pre ++ t) : slice? buf i pre.length = some pre := by
  have htlen : 0 < t.length := List.length_pos.mpr ht
  have hlen : (buf.drop i).length = buf.length - i := List.length_drop i buf
  rw [h, List.length_append] at hlen
  have hi : i ≤ buf.length := by
    by_contra hgt
    have h0 : buf.drop i = [] := List.drop_eq_nil_of_le (by omega)
    rw [h0] at h
    have hc := congrArg List.length h.symm
    rw [List.length_append, List.length_nil] at hc
    omega
  rw [slice?, if_pos (by omega), h, List.take_left]

theorem parseLabels_zero (buf : List Nat) (i fuel : Nat) (h : buf[i]? = some 0) :
    parseLabels buf i (fuel + 1) = some ([], i + 1) := by
  simp [parseLabels, h]

theorem parseLabels_label (buf : List Nat) (i fuel b : Nat) (label : List Nat)
    (ls : List (List Nat)) (j : Nat)
    (hb : buf[i]? = some b) (hb0 : b ≠ 0) (hbc : b < 0xC0)
    (hslice : slice? buf (i + 1) b = some label)
    (hrec : parseLabels buf (i + b + 1) fuel = some (ls, j)) :
    parseLabels buf i (fuel + 1) = some (label :: ls, j) := by
  simp only [parseLabels, hb]
  simp [hb0, Nat.not_le.mpr hbc, hslice, hrec]

theorem parseLabels_pointer (buf : List Nat) (i fuel b b2 : Nat)
    (ls : List (List Nat)) (j : Nat)
    (hb : buf[i]? = some b) (hbc : 0xC0 ≤ b) (hb2 : buf[i+1]? = some b2)
    (hrec : parseLabels buf (getU16 b b2 &&& 0x3FFF) fuel = some (ls, j)) :
    parseLabels buf i (fuel + 1) = some (ls, i + 2) := by
  have hb0 : b ≠ 0 := by omega
  simp only [parseLabels, hb]
  simp [hb0, hbc, hb2, hrec]

theorem parseLabels_encode (buf : List Nat) (ls : List (List Nat))
    (rest : List Nat) (hwf : ∀ l ∈ ls, 1 ≤ l.length ∧ l.length ≤ 63) :
    ∀ fuel i, ls.length < fuel → buf.drop i = labelBytes ls ++ 0 :: rest →
    parseLabels buf i fuel = some (ls, i + (labelBytes ls).length + 1) := by
  induction ls with
  | nil =>
    intro fuel i hfuel h
    simp only [labelBytes, List.flatMap_nil, List.nil_append] at h
    cases fuel with
    | zero => omega
    | succ f =>
      rw [parseLabels_zero buf i f (getElem?_eq_of_drop buf rest i 0 h)]
      simp [labelBytes]
  | cons l ls ih =>
    intro fuel i hfuel h
    obtain ⟨hl1, hl63⟩ := hwf l (List.mem_cons_self l ls)
    have hwf' : ∀ l' ∈ ls, 1 ≤ l'.length ∧ l'.length ≤ 63 := fun l' hl' =>
      hwf l' (List.mem_cons_of_mem l hl')
    have hmod : l.length % 256 = l.length := Nat.mod_eq_of_lt (by omega)
    simp only [labelBytes, List.flatMap_cons, List.cons_append, List.append_assoc] at h
    cases fuel with
    | zero => omega
    | succ f =>
    have hb : buf[i]? = some (l.length % 256) :=
      getElem?_eq_of_drop _ _ _ _ h
    have hdrop1 : buf.drop (i + 1) = l ++ (labelBytes ls ++ 0 :: rest) := by
      have := drop_succ_of_drop _ _ _ _ h
      simpa [labelBytes] using this
    have hslice : slice? buf (i + 1) (l.length % 256) = some l := by
      rw [hmod]
      exact slice?_of_drop buf l _ (i + 1) (by simp) hdrop1
    have hdrop2 : buf.drop (i + 1 + l.length) = labelBytes ls ++ 0 :: rest :=
      drop_add_of_drop buf l _ (i + 1) hdrop1
    have hfuel' : ls.length < f := by simpa using Nat.lt_of_succ_lt_succ hfuel
    have hrec := ih hwf' f (i + 1 + l.length) hfuel' hdrop2
    have harith : i + (l.length % 256) + 1 = i + 1 + l.length := by omega
    rw [parseLabels_label buf i f (l.length % 256) l ls
      (i + 1 + l.length + (labelBytes ls).length + 1) hb (by omega) (by omega) hslice
      (by rw [harith]; exact hrec)]
    simp [labelBytes, hmod]
    omega

theorem splitOnDot_ne_nil (s : List Nat) : splitOnDot s ≠ [] := by
  cases s with
  | nil => simp [splitOnDot]
  | cons c rest =>
    by_cases hc : c = 46
    · simp [splitOnDot, hc]
    · simp only [splitOnDot, if_neg hc]
      cases splitOnDot rest <;> simp

theorem joinDot_splitOnDot (s : List Nat) : joinDot (splitOnDot s) = s := by
  induction s with
  | nil => rfl
  | cons c rest ih =>
    by_cases hc : c = 46
    · subst hc
      simp only [splitOnDot, if_pos rfl]
      rcases hrest : splitOnDot rest with _ | ⟨l, ls⟩
      · exact absurd hrest (splitOnDot_ne_nil rest)
      · rw [hrest] at ih
        simp only [joinDot]
        rw [ih]
        cases ls <;> rfl
    · simp only [splitOnDot, if_neg hc]
      rcases hrest : splitOnDot rest with _ | ⟨l, ls⟩
      · exact absurd hrest (splitOnDot_ne_nil rest)
      · rw [hrest] at ih
        cases ls with
        | nil => simp only [joinDot] at ih ⊢; rw [ih]
        | cons l2 ls2 => simp only [joinDot] at ih ⊢; rw [List.cons_append, ih]

theorem byte2_unpack : ∀ qr < 2, ∀ op < 16, ∀ aa < 2, ∀ tc < 2, ∀ rd < 2,
    ((qr <<< 7) % 256 ||| (op <<< 3) % 256 ||| (aa <<< 2) % 256 ||| (tc <<< 1) % 256 ||| rd) >>> 7 = qr ∧
    ((qr <<< 7) % 256 ||| (op <<< 3) % 256 ||| (aa <<< 2) % 256 ||| (tc <<< 1) % 256 ||| rd) >>> 3 &&& 0x0F = op := by
  decide

theorem byte2_unpack2 : ∀ qr < 2, ∀ op < 16, ∀ aa < 2, ∀ tc < 2, ∀ rd < 2,
    ((qr <<< 7) % 256 ||| (op <<< 3) % 256 ||| (aa <<< 2) % 256 ||| (tc <<< 1) % 256 ||| rd) >>> 2 &&& 0x01 = aa ∧
    ((qr <<< 7) % 256 ||| (op <<< 3) % 256 ||| (aa <<< 2) % 256 ||| (tc <<< 1) % 256 ||| rd) >>> 1 &&& 0x01 = tc := by
  decide

theorem byte2_unpack3 : ∀ qr < 2, ∀ op < 16, ∀ aa < 2, ∀ tc < 2, ∀ rd < 2,
    ((qr <<< 7) % 256 ||| (op <<< 3) % 256 ||| (aa <<< 2) % 256 ||| (tc <<< 1) % 256 ||| rd) &&& 0x01 = rd := by
  decide

theorem byte3_unpack : ∀ ra < 2, ∀ res < 8, ∀ rc < 16,
    ((ra <<< 7) % 256 ||| (res <<< 4) % 256 ||| rc) >>> 7 = ra ∧
    ((ra <<< 7) % 256 ||| (res <<< 4) % 256 ||| rc) >>> 4 &&& 0x07 = res ∧
    ((ra <<< 7) % 256 ||| (res <<< 4) % 256 ||| rc) &&& 0x0F = rc := by
  decide

theorem slice?_suffix (buf pre : List Nat) (i : Nat) (hi : i ≤ buf.length)
    (h : buf.drop i = pre) : slice? buf i pre.length = some pre := by
  have hlen : (buf.drop i).length = buf.length - i := List.length_drop i buf
  rw [h] at hlen
  rw [slice?, if_pos (by omega), h, List.take_length]

theorem parseHeader_roundTrip (h : Header) (hwf : wfHeader h) :
    parseHeader h.ToBytes = some h := by
  obtain ⟨hid, hqr, hop, haa, htc, hrd, hra, hres, hrc, hqc, harc, hauthc, haddc⟩ := hwf
  obtain ⟨id, qr, op, aa, tc, rd, ra, res, rc, qc, arc, authc, addc⟩ := h
  simp only at hid hqr hop haa htc hrd hra hres hrc hqc harc hauthc haddc
  simp only [Header.ToBytes, putU16, List.cons_append, List.nil_append]
  simp only [parseHeader, List.getElem?_cons_zero, List.getElem?_cons_succ,
    Option.bind_eq_bind, Option.some_bind]
  simp only [pure, Option.some.injEq, Header.mk.injEq]
  refine ⟨?_, ?_, ?_, ?_, ?_, ?_, ?_, ?_, ?_, ?_, ?_, ?_, ?_⟩
  · simp [getU16]; omega
  · exact (byte2_unpack qr hqr op hop aa haa tc htc rd hrd).1
  · exact (byte2_unpack qr hqr op hop aa haa tc htc rd hrd).2
  · exact (byte2_unpack2 qr hqr op hop aa haa tc htc rd hrd).1
  · exact (byte2_unpack2 qr hqr op hop aa haa tc htc rd hrd).2
  · exact byte2_unpack3 qr hqr op hop aa haa tc htc rd hrd
  · exact (byte3_unpack ra hra res hres rc hrc).1
  · exact (byte3_unpack ra hra res hres rc hrc).2.1
  · exact (byte3_unpack ra hra res hres rc hrc).2.2
  · simp [getU16]; omega
  · simp [getU16]; omega
  · simp [getU16]; omega
  · simp [getU16]; omega

theorem parseQuestion_roundTrip (q : Question) (fuel : Nat) (hwf : wfQuestion q)
    (hfuel : (splitOnDot q.Name).length < fuel) :
    parseQuestion q.ToBytes 0 fuel = some (q, q.ToBytes.length) := by
  obtain ⟨hname, htype, hclass⟩ := hwf
  obtain ⟨name, ty, cl⟩ := q
  simp only [wfName] at hname
  simp only at htype hclass hfuel
  have hbuf : (Question.ToBytes ⟨name, ty, cl⟩) =
      labelBytes (splitOnDot name) ++ 0 :: (putU16 ty ++ putU16 cl) := by
    simp [Question.ToBytes]
  have h0 : (Question.ToBytes ⟨name, ty, cl⟩).drop 0 =
      labelBytes (splitOnDot name) ++ 0 :: (putU16 ty ++ putU16 cl) := by
    simpa using hbuf
  have hlabels := parseLabels_encode _ _ _ hname fuel 0 hfuel h0
  have hdropL : (Question.ToBytes ⟨name, ty, cl⟩).drop
      (0 + (labelBytes (splitOnDot name)).length + 1) =
      ty / 256 % 256 :: ty % 256 :: cl / 256 % 256 :: [cl % 256] := by
    have hsplit : (Question.ToBytes ⟨name, ty, cl⟩).drop 0 =
        (labelBytes (splitOnDot name) ++ [0]) ++ (putU16 ty ++ putU16 cl) := by
      rw [h0]; simp
    have hdd := drop_add_of_drop _ _ _ 0 hsplit
    rw [List.length_append] at hdd
    simp only [List.length_cons, List.length_nil] at hdd
    rw [show 0 + (labelBytes (splitOnDot name)).length + 1 =
      0 + ((labelBytes (splitOnDot name)).length + (0 + 1)) by omega]
    rw [hdd]
    simp [putU16]
  set i := 0 + (labelBytes (splitOnDot name)).length + 1 with hi
  have hr0 := getElem?_eq_of_drop _ _ _ _ hdropL
  have hd0 := drop_succ_of_drop _ _ _ _ hdropL
  have hr1 := getElem?_eq_of_drop _ _ _ _ hd0
  have hd1 := drop_succ_of_drop _ _ _ _ hd0
  have hr2 := getElem?_eq_of_drop _ _ _ _ hd1
  have hd2 := drop_succ_of_drop _ _ _ _ hd1
  have hr3 := getElem?_eq_of_drop _ _ _ _ hd2
  simp only [parseQuestion, hlabels, Option.bind_eq_bind, Option.some_bind]
  rw [hr0, hr1, hr2, hr3]
  simp only [Option.bind_eq_bind, Option.some_bind, pure, Option.some.injEq, Prod.mk.injEq,
    Question.mk.injEq]
  refine ⟨⟨joinDot_splitOnDot name, ?_, ?_⟩, ?_⟩
  · simp [getU16]; omega
  · simp [getU16]; omega
  · rw [hbuf]; simp [putU16, hi]

theorem parseAnswer_roundTrip (a : Answer) (fuel : Nat) (hwf : wfAnswer a)
    (hfuel : (splitOnDot a.Name).length < fuel) :
    parseAnswer a.ToBytes 0 fuel = some a := by
  obtain ⟨hname, htype, hclass, httl, hrdl, hrdata⟩ := hwf
  obtain ⟨name, ty, cl, ttl, rdlen, rdata⟩ := a
  simp only [wfName] at hname
  simp only at htype hclass httl hrdl hrdata hfuel
  have hbuf : (Answer.ToBytes ⟨name, ty, cl, ttl, rdlen, rdata⟩) =
      labelBytes (splitOnDot name) ++
        0 :: (putU16 ty ++ putU16 cl ++ putU32 ttl ++ putU16 rdlen ++ rdata) := by
    simp [Answer.ToBytes]
  have h0 : (Answer.ToBytes ⟨name, ty, cl, ttl, rdlen, rdata⟩).drop 0 =
      labelBytes (splitOnDot name) ++
        0 :: (putU16 ty ++ putU16 cl ++ putU32 ttl ++ putU16 rdlen ++ rdata) := by
    simpa using hbuf
  have hlabels := parseLabels_encode _ _ _ hname fuel 0 hfuel h0
  have hdropL : (Answer.ToBytes ⟨name, ty, cl, ttl, rdlen, rdata⟩).drop
      (0 + (labelBytes (splitOnDot name)).length + 1) =
      ty / 256 % 256 :: ty % 256 :: cl / 256 % 256 :: cl % 256 ::
      ttl / 16777216 % 256 :: ttl / 65536 % 256 :: ttl / 256 % 256 :: ttl % 256 ::
      rdlen / 256 % 256 :: rdlen % 256 :: rdata := by
    have hsplit : (Answer.ToBytes ⟨name, ty, cl, ttl, rdlen, rdata⟩).drop 0 =
        (labelBytes (splitOnDot name) ++ [0]) ++
          (putU16 ty ++ putU16 cl ++ putU32 ttl ++ putU16 rdlen ++ rdata) := by
      rw [h0]; simp
    have hdd := drop_add_of_drop _ _ _ 0 hsplit
    rw [List.length_append] at hdd
    simp only [List.length_cons, List.length_nil] at hdd
    rw [show 0 + (labelBytes (splitOnDot name)).length + 1 =
      0 + ((labelBytes (splitOnDot name)).length + (0 + 1)) by omega]
    rw [hdd]
    simp [putU16, putU32]
  set i := 0 + (labelBytes (splitOnDot name)).length + 1 with hi
  have hr0 := getElem?_eq_of_drop _ _ _ _ hdropL
  have hd0 := drop_succ_of_drop _ _ _ _ hdropL
  have hr1 := getElem?_eq_of_drop _ _ _ _ hd0
  have hd1 := drop_succ_of_drop _ _ _ _ hd0
  have hr2 := getElem?_eq_of_drop _ _ _ _ hd1
  have hd2 := drop_succ_of_drop _ _ _ _ hd1
  have hr3 := getElem?_eq_of_drop _ _ _ _ hd2
  have hd3 := drop_succ_of_drop _ _ _ _ hd2
  have hr4 := getElem?_eq_of_drop _ _ _ _ hd3
  have hd4 := drop_succ_of_drop _ _ _ _ hd3
  have hr5 := getElem?_eq_of_drop _ _ _ _ hd4
  have hd5 := drop_succ_of_drop _ _ _ _ hd4
  have hr6 := getElem?_eq_of_drop _ _ _ _ hd5
  have hd6 := drop_succ_of_drop _ _ _ _ hd5
  have hr7 := getElem?_eq_of_drop _ _ _ _ hd6
  have hd7 := drop_succ_of_drop _ _ _ _ hd6
  have hr8 := getElem?_eq_of_drop _ _ _ _ hd7
  have hd8 := drop_succ_of_drop _ _ _ _ hd7
  have hr9 := getElem?_eq_of_drop _ _ _ _ hd8
  have hd9 := drop_succ_of_drop _ _ _ _ hd8
  have hi9 : i + 9 < (Answer.ToBytes ⟨name, ty, cl, ttl, rdlen, rdata⟩).length := by
    rcases List.getElem?_eq_some.mp hr9 with ⟨hlt, -⟩
    exact hlt
  have hrdu : getU16 (rdlen / 256 % 256) (rdlen % 256) = rdlen := by
    simp [getU16]; omega
  have hslice : slice? (Answer.ToBytes ⟨name, ty, cl, ttl, rdlen, rdata⟩) (i + 10)
      rdlen = some rdata := by
    have h10 : i + 10 ≤ (Answer.ToBytes ⟨name, ty, cl, ttl, rdlen, rdata⟩).length := by omega
    have hd9' : (Answer.ToBytes ⟨name, ty, cl, ttl, rdlen, rdata⟩).drop (i + 10) = rdata := by
      rw [show i + 10 = i + 9 + 1 by omega]
      exact hd9
    have hs := slice?_suffix _ rdata _ h10 hd9'
    rwa [hrdata] at hs
  simp only [parseAnswer, hlabels, Option.bind_eq_bind, Option.some_bind]
  rw [hr0, hr1, hr2, hr3, hr4, hr5, hr6, hr7, hr8, hr9]
  simp only [Option.bind_eq_bind, Option.some_bind]
  rw [hrdu, hslice]
  simp only [Option.some_bind, pure, Option.some.injEq, Answer.mk.injEq]
  refine ⟨joinDot_splitOnDot name, ?_, ?_, ?_, trivial, trivial⟩
  · simp [getU16]; omega
  · simp [getU16]; omega
  · simp [getU16, getU32]; omega

theorem queryDNSBytes_eq (h : Header) (q : Question) (bytes : List Nat)
    (hq : queryDNSBytes { Header := h, Question := [q], Answer := [],
                          Authority := 0, Additional := 0 } = some bytes) :
    bytes = h.ToBytes ++ q.ToBytes := by
  simp only [queryDNSBytes] at hq
  split at hq
  · simp only [Option.some.injEq] at hq
    exact hq.symm
  · exact Option.noConfusion hq

theorem resolveLoop_header (fuel : Nat) (qs : List Question) :
    ∀ (h : Header) (rs : List (List Nat)) (hF : Header) (qAcc : List Question)
      (aAcc : List Answer),
    resolveLoop fuel h qs rs = some (hF, qAcc, aAcc) →
    hF.ID = h.ID ∧ hF.QR = h.QR ∧ hF.OpCode = h.OpCode ∧
    hF.AuthorativeAnswer = h.AuthorativeAnswer ∧ hF.Truncation = h.Truncation ∧
    hF.RecursionDesired = h.RecursionDesired ∧
    hF.RecursionAvailable = h.RecursionAvailable ∧ hF.Reserved = h.Reserved ∧
    hF.ResponseCode = h.ResponseCode ∧
    hF.AuthorativeRecordCount = h.AuthorativeRecordCount ∧
    hF.AdditionalRecordCount = h.AdditionalRecordCount := by
  induction qs with
  | nil =>
    intro h rs hF qAcc aAcc hres
    simp only [resolveLoop, Option.some.injEq, Prod.mk.injEq] at hres
    obtain ⟨h1, -, -⟩ := hres
    subst h1
    exact ⟨rfl, rfl, rfl, rfl, rfl, rfl, rfl, rfl, rfl, rfl, rfl⟩
  | cons q qs ih =>
    intro h rs hF qAcc aAcc hres
    simp only [resolveLoop, Option.bind_eq_bind, Option.bind_eq_some] at hres
    obtain ⟨bytes, -, hres⟩ := hres
    cases rs with
    | nil => exact Option.noConfusion hres
    | cons resp resps' =>
      simp only [Option.bind_eq_some] at hres
      obtain ⟨⟨respMsg, e⟩, -, hres⟩ := hres
      obtain ⟨⟨hL, qA, aA⟩, hrec, hres⟩ := hres
      simp only [Option.some.injEq, Prod.mk.injEq] at hres
      obtain ⟨h1, -, -⟩ := hres
      subst h1
      have hh := ih _ _ _ _ _ hrec
      exact hh

theorem resolveLoop_accum (fuel : Nat) (qs : List Question) :
    ∀ (h : Header) (rs : List (List Nat)) (hF : Header) (qAcc : List Question)
      (aAcc : List Answer),
    resolveLoop fuel h qs rs = some (hF, qAcc, aAcc) →
    qAcc = parsedQuestions (rs.take qs.length) fuel ∧
    aAcc = parsedAnswers (rs.take qs.length) fuel := by
  induction qs with
  | nil =>
    intro h rs hF qAcc aAcc hres
    simp only [resolveLoop, Option.some.injEq, Prod.mk.injEq] at hres
    obtain ⟨-, h2, h3⟩ := hres
    subst h2; subst h3
    simp [parsedQuestions, parsedAnswers]
  | cons q qs ih =>
    intro h rs hF qAcc aAcc hres
    simp only [resolveLoop, Option.bind_eq_bind, Option.bind_eq_some] at hres
    obtain ⟨bytes, -, hres⟩ := hres
    cases rs with
    | nil => exact Option.noConfusion hres
    | cons resp resps' =>
      simp only [Option.bind_eq_some] at hres
      obtain ⟨⟨respMsg, e⟩, hparse, hres⟩ := hres
      obtain ⟨⟨hL, qA, aA⟩, hrec, hres⟩ := hres
      simp only [Option.some.injEq, Prod.mk.injEq] at hres
      obtain ⟨-, h2, h3⟩ := hres
      subst h2; subst h3
      obtain ⟨hq, ha⟩ := ih _ _ _ _ _ hrec
      subst hq; subst ha
      constructor
      · simp [parsedQuestions, hparse]
      · simp [parsedAnswers, hparse]

/-- C6: in the reply assembled by the forwarding resolver (success path of
`handleConnection`, modelled by `handleSuccess`), the header's ResponseCode
equals 4 iff the inbound header's OpCode is non-zero, equals 0 when the
inbound OpCode is 0, and the QR flag is set to 1. -/
theorem C6_opcode_policy :
    ∀ (msg : Message) (resps : List (List Nat)) (fuel : Nat) (h : Header)
      (qs : List Question) (ans : List Answer) (out : List Nat),
      handleSuccess msg resps fuel = some (h, qs, ans, out) →
      (h.ResponseCode = 4 ↔ msg.Header.OpCode ≠ 0) ∧
      (msg.Header.OpCode = 0 → h.ResponseCode = 0) ∧ h.QR = 1 := by
  intro msg resps fuel h qs ans out hres
  simp only [handleSuccess, Option.bind_eq_bind, Option.bind_eq_some] at hres
  obtain ⟨⟨hL, qsL, ansL⟩, hloop, hres⟩ := hres
  simp only [Option.some.injEq, Prod.mk.injEq] at hres
  obtain ⟨h1, -, -, -⟩ := hres
  have hpres := resolveLoop_header fuel msg.Question msg.Header resps hL qsL ansL hloop
  have hop : hL.OpCode = msg.Header.OpCode := hpres.2.2.1
  subst h1
  refine ⟨?_, ?_, rfl⟩
  · by_cases hc : msg.Header.OpCode = 0
    · simp [hop, hc]
    · simp [hop, hc]
  · intro hc
    simp [hop, hc]

/-- C8: for every merged reply, the emitted bytes are the concatenation of
the encoded header, the accumulated questions in order and the accumulated
answers in order; the header's QuestionCount/AnswerRecordCount equal the
accumulator lengths (below 2^16); and the accumulators hold the questions
and answers of the parsed upstream replies in per-question arrival order. -/
theorem C8_count_invariant :
    ∀ (msg : Message) (resps : List (List Nat)) (fuel : Nat) (h : Header)
      (qs : List Question) (ans : List Answer) (out : List Nat),
      handleSuccess msg resps fuel = some (h, qs, ans, out) →
      qs.length < 65536 → ans.length < 65536 →
      h.QuestionCount = qs.length ∧ h.AnswerRecordCount = ans.length ∧
      out = h.ToBytes ++ qs.flatMap Question.ToBytes ++ ans.flatMap Answer.ToBytes ∧
      qs = parsedQuestions (resps.take msg.Question.length) fuel ∧
      ans = parsedAnswers (resps.take msg.Question.length) fuel := by
  intro msg resps fuel h qs ans out hres hq65 ha65
  simp only [handleSuccess, Option.bind_eq_bind, Option.bind_eq_some] at hres
  obtain ⟨⟨hL, qsL, ansL⟩, hloop, hres⟩ := hres
  simp only [Option.some.injEq, Prod.mk.injEq] at hres
  obtain ⟨h1, h2, h3, h4⟩ := hres
  subst h2; subst h3; subst h1; subst h4
  obtain ⟨hq, ha⟩ := resolveLoop_accum fuel msg.Question msg.Header resps hL _ _ hloop
  exact ⟨Nat.mod_eq_of_lt hq65, Nat.mod_eq_of_lt ha65, rfl, hq, ha⟩

/-- C9: every header field other than QR, ResponseCode, QuestionCount and
AnswerRecordCount is unchanged from the inbound header in the merged reply;
in particular AuthorityRecordCount and AdditionalRecordCount keep the
inbound values even though no authority/additional records are decoded or
re-encoded. -/
theorem C9_untouched_fields :
    ∀ (msg : Message) (resps : List (List Nat)) (fuel : Nat) (h : Header)
      (qs : List Question) (ans : List Answer) (out : List Nat),
      handleSuccess msg resps fuel = some (h, qs, ans, out) →
      h.ID = msg.Header.ID ∧ h.OpCode = msg.Header.OpCode ∧
      h.AuthorativeAnswer = msg.Header.AuthorativeAnswer ∧
      h.Truncation = msg.Header.Truncation ∧
      h.RecursionDesired = msg.Header.RecursionDesired ∧
      h.RecursionAvailable = msg.Header.RecursionAvailable ∧
      h.Reserved = msg.Header.Reserved ∧
      h.AuthorativeRecordCount = msg.Header.AuthorativeRecordCount ∧
      h.AdditionalRecordCount = msg.Header.AdditionalRecordCount := by
  intro msg resps fuel h qs ans out hres
  simp only [handleSuccess, Option.bind_eq_bind, Option.bind_eq_some] at hres
  obtain ⟨⟨hL, qsL, ansL⟩, hloop, hres⟩ := hres
  simp only [Option.some.injEq, Prod.mk.injEq] at hres
  obtain ⟨h1, -, -, -⟩ := hres
  have hpres := resolveLoop_header fuel msg.Question msg.Header resps hL qsL ansL hloop
  subst h1
  exact ⟨hpres.1, hpres.2.2.1, hpres.2.2.2.1, hpres.2.2.2.2.1, hpres.2.2.2.2.2.1,
         hpres.2.2.2.2.2.2.1, hpres.2.2.2.2.2.2.2.1, hpres.2.2.2.2.2.2.2.2.2.1,
         hpres.2.2.2.2.2.2.2.2.2.2⟩

/-- C7: each request forwarded upstream is, in question order, exactly the
encoding of a header with QuestionCount 1 and AnswerRecordCount 0 and all
other fields (ID, flags) from the inbound header, followed by exactly that
one question's encoding and nothing else. -/
theorem C7_forwarded_request_shape :
    ∀ (h : Header) (qs : List Question) (reqs : List (List Nat)),
      forwardedRequests h qs = some reqs →
      reqs.length = qs.length ∧
      ∀ i (hi : i < qs.length),
        reqs[i]? = some
          (({ h with QuestionCount := 1, AnswerRecordCount := 0 } : Header).ToBytes ++
            (qs.get ⟨i, hi⟩).ToBytes) := by
  intro h qs
  induction qs generalizing h with
  | nil =>
    intro reqs hres
    simp only [forwardedRequests, Option.some.injEq] at hres
    subst hres
    exact ⟨rfl, fun i hi => absurd hi (by simp)⟩
  | cons q qs ih =>
    intro reqs hres
    simp only [forwardedRequests, Option.bind_eq_bind, Option.bind_eq_some] at hres
    obtain ⟨bytes, hq, rest, hrest, hsome⟩ := hres
    have hbytes := queryDNSBytes_eq _ _ _ hq
    obtain ⟨hlen, hidx⟩ := ih _ _ hrest
    simp only [Option.some.injEq] at hsome
    subst hsome
    subst hbytes
    refine ⟨by simp [hlen], ?_⟩
    intro i hi
    cases i with
    | zero => simp
    | succ i' =>
      have hi' : i' < qs.length := by simpa using hi
      have := hidx i' hi'
      simpa using this

/-- On any buffer shorter than 12 bytes, `parseHeader` hits an
out-of-bounds read (a Go slice panic, `none` in the embedding). -/
theorem parseHeader_short (buf : List Nat) (hlen : buf.length < 12) : parseHeader buf = none := by
  match buf, hlen with
  | [], _ => rfl
  | [a0], _ => rfl
  | [a0, a1], _ => rfl
  | [a0, a1, a2], _ => rfl
  | [a0, a1, a2, a3], _ => rfl
  | [a0, a1, a2, a3, a4], _ => rfl
  | [a0, a1, a2, a3, a4, a5], _ => rfl
  | [a0, a1, a2, a3, a4, a5, a6], _ => rfl
  | [a0, a1, a2, a3, a4, a5, a6, a7], _ => rfl
  | [a0, a1, a2, a3, a4, a5, a6, a7, a8], _ => rfl
  | [a0, a1, a2, a3, a4, a5, a6, a7, a8, a9], _ => rfl
  | [a0, a1, a2, a3, a4, a5, a6, a7, a8, a9, a10], _ => rfl
  | a0 :: a1 :: a2 :: a3 :: a4 :: a5 :: a6 :: a7 :: a8 :: a9 :: a10 :: a11 :: rest, h =>
    simp only [List.length_cons] at h
    omega

/-- C4: contrary to the claim, truncated input does NOT produce a
`TruncatedInput` error — no such error value exists in the source.
`parseHeader` on fewer than 12 bytes performs an out-of-bounds access
(`none` models the Go panic), and `parseLabels` on a label whose declared
length (10) exceeds the remaining bytes (5) likewise panics for every
fuel. -/
theorem C4_truncation_is_panic :
    (∀ buf : List Nat, buf.length < 12 → parseHeader buf = none) ∧
    (∀ fuel : Nat, parseLabels [10, 97, 97, 97, 97, 97] 0 fuel = none) := by
  refine ⟨parseHeader_short, ?_⟩
  intro fuel
  cases fuel with
  | zero => rfl
  | succ f => simp [parseLabels, slice?]

/-- Witness for C4 at a concrete 5-byte buffer. -/
theorem C4_truncation_is_panic_witness :
    (List.replicate 5 0).length < 12 ∧ parseHeader (List.replicate 5 0) = none :=
  ⟨by decide, C4_truncation_is_panic.1 (List.replicate 5 0) (by decide)⟩

/-- C3: contrary to the claim, the source has no cycle or depth guard: on
the self-referential compression pointer `C0 00` at offset 0, `parseLabels`
returns `none` for EVERY fuel bound, i.e. the unbounded Go recursion never
returns (infinite recursion), instead of failing with `CompressionLoop` or
`CompressionDepthExceeded`. -/
theorem C3_pointer_cycle_never_returns :
    ∀ fuel : Nat, parseLabels [0xC0, 0x00] 0 fuel = none := by
  intro fuel
  induction fuel with
  | zero => rfl
  | succ f ih =>
    have h0 : (49152 : Nat) &&& 16383 = 0 := by decide
    simp [parseLabels, getU16, h0, ih]

/-- C2: when `parseLabels` meets a length byte `b ≥ 0xC0` at offset `i`,
it takes the low 14 bits of the two bytes at `i` as an absolute offset,
returns the labels decoded there as the final labels of the name (anything
decoded before the pointer is prepended by the label step, second
conjunct), and returns the caller's next offset as exactly `i + 2`,
whatever next offset `j` the pointed-to data produced. -/
theorem C2_compression_pointer :
    (∀ (buf : List Nat) (i fuel b b2 : Nat) (ls : List (List Nat)) (j : Nat),
      buf[i]? = some b → 0xC0 ≤ b → buf[i+1]? = some b2 →
      parseLabels buf (getU16 b b2 &&& 0x3FFF) fuel = some (ls, j) →
      parseLabels buf i (fuel + 1) = some (ls, i + 2)) ∧
    (∀ (buf : List Nat) (i fuel b : Nat) (label : List Nat) (ls : List (List Nat)) (j : Nat),
      buf[i]? = some b → b ≠ 0 → b < 0xC0 → slice? buf (i + 1) b = some label →
      parseLabels buf (i + b + 1) fuel = some (ls, j) →
      parseLabels buf i (fuel + 1) = some (label :: ls, j)) :=
  ⟨fun buf i fuel b b2 ls j hb hbc hb2 hrec =>
     parseLabels_pointer buf i fuel b b2 ls j hb hbc hb2 hrec,
   fun buf i fuel b label ls j hb hb0 hbc hs hrec =>
     parseLabels_label buf i fuel b label ls j hb hb0 hbc hs hrec⟩

/-- Witness for C2: a name at offset 5 that is a pointer to offset 0 where
labels "a","b" are stored decodes to those labels with next offset 7. -/
theorem C2_compression_pointer_witness :
    ([1, 97, 1, 98, 0, 192, 0] : List Nat)[5]? = some 192 ∧
    (0xC0 ≤ 192 ∧ ([1, 97, 1, 98, 0, 192, 0] : List Nat)[5+1]? = some 0) ∧
    parseLabels [1, 97, 1, 98, 0, 192, 0] (getU16 192 0 &&& 0x3FFF) 3 = some ([[97], [98]], 5) ∧
    parseLabels [1, 97, 1, 98, 0, 192, 0] 5 (3 + 1) = some ([[97], [98]], 5 + 2) :=
  ⟨by decide, ⟨by decide, by decide⟩, by decide,
   C2_compression_pointer.1 [1, 97, 1, 98, 0, 192, 0] 5 3 192 0 [[97], [98]] 5
     (by decide) (by decide) (by decide) (by decide)⟩

/-- C1: decode of encode is the identity: `parseHeader` inverts
`Header.ToBytes` for any header whose bit-fields are within their widths;
`parseQuestion` at offset 0 inverts `Question.ToBytes` and `parseAnswer`
inverts `Answer.ToBytes` for any question/record whose name has labels of
1 to 63 bytes and (for records) RDATA of exactly RDLENGTH bytes, for any
fuel exceeding the label count. -/
theorem C1_decode_encode :
    (∀ h : Header, wfHeader h → parseHeader h.ToBytes = some h) ∧
    (∀ (q : Question) (fuel : Nat), wfQuestion q → (splitOnDot q.Name).length < fuel →
      parseQuestion q.ToBytes 0 fuel = some (q, q.ToBytes.length)) ∧
    (∀ (a : Answer) (fuel : Nat), wfAnswer a → (splitOnDot a.Name).length < fuel →
      parseAnswer a.ToBytes 0 fuel = some a) :=
  ⟨parseHeader_roundTrip,
   fun q fuel hq hf => parseQuestion_roundTrip q fuel hq hf,
   fun a fuel ha hf => parseAnswer_roundTrip a fuel ha hf⟩

/-- Witness for C1 at concrete well-formed values. -/
theorem C1_decode_encode_witness :
    (wfHeader exHeader ∧ wfQuestion exQuestion ∧ wfAnswer exAnswer) ∧
    parseHeader exHeader.ToBytes = some exHeader ∧
    parseQuestion exQuestion.ToBytes 0 3 = some (exQuestion, exQuestion.ToBytes.length) ∧
    parseAnswer exAnswer.ToBytes 0 2 = some exAnswer :=
  ⟨⟨by decide, by decide, by decide⟩,
   C1_decode_encode.1 exHeader (by decide),
   C1_decode_encode.2.1 exQuestion 3 (by decide) (by decide),
   C1_decode_encode.2.2 exAnswer 2 (by decide) (by decide)⟩

set_option maxRecDepth 100000 in
/-- C5: contrary to the claim, encoding never fails with `LabelTooLong`
(no error path exists): a question whose single label has 192 bytes is
encoded with leading length byte 192 = 0xC0, which the repository's own
decoder then misreads as a compression pointer, so decoding the encoding
fails. -/
theorem C5_no_label_length_check :
    (Question.ToBytes exLongLabelQuestion)[0]? = some 192 ∧
    parseQuestion (Question.ToBytes exLongLabelQuestion) 0 9 = none := by
  constructor
  · decide
  · decide

/-- C10: `parseRequest` pairs every message it returns with a `nil` error
(its only return statement), so the caller's parse-error branch is
unreachable. -/
theorem C10_parse_error_always_nil :
    ∀ (request : List Nat) (fuel : Nat) (m : Message) (e : Option String),
      parseRequest request fuel = some (m, e) → e = none := by
  intro request fuel m e hres
  simp only [parseRequest, Option.bind_eq_bind, Option.bind_eq_some] at hres
  obtain ⟨hd, -, hres⟩ := hres
  obtain ⟨⟨qs, s⟩, -, hres⟩ := hres
  obtain ⟨ans, -, hres⟩ := hres
  simp only [pure, Option.some.injEq, Prod.mk.injEq] at hres
  exact hres.2.symm

/-- Witness for C10 on the all-zero 12-byte request. -/
theorem C10_parse_error_always_nil_witness :
    parseRequest exEmptyRequest 1 = some (exEmptyMessage, none) ∧
    (none : Option String) = none := by
  have h : parseRequest exEmptyRequest 1 = some (exEmptyMessage, none) := by decide
  exact ⟨h, C10_parse_error_always_nil exEmptyRequest 1 exEmptyMessage none h⟩

/-- Witness for C6: a one-question, OpCode-0 exchange yields ResponseCode
0 and QR 1. -/
theorem C6_opcode_policy_witness :
    handleSuccess exMessage [exReply] 3 =
      some (exMergedHeader, [exQuestion], [exAnswer],
        exMergedHeader.ToBytes ++ Question.ToBytes exQuestion ++ Answer.ToBytes exAnswer) ∧
    ((exMergedHeader.ResponseCode = 4 ↔ exMessage.Header.OpCode ≠ 0) ∧
     (exMessage.Header.OpCode = 0 → exMergedHeader.ResponseCode = 0) ∧
     exMergedHeader.QR = 1) := by
  have h : handleSuccess exMessage [exReply] 3 =
      some (exMergedHeader, [exQuestion], [exAnswer],
        exMergedHeader.ToBytes ++ Question.ToBytes exQuestion ++ Answer.ToBytes exAnswer) := by
    decide
  exact ⟨h, C6_opcode_policy exMessage [exReply] 3 _ _ _ _ h⟩

/-- Witness for C7 on a single-question message. -/
theorem C7_forwarded_request_shape_witness :
    forwardedRequests exHeader [exQuestion] =
      some [exFwdHeader.ToBytes ++ exQuestion.ToBytes] ∧
    [exFwdHeader.ToBytes ++ exQuestion.ToBytes][0]? =
      some (exFwdHeader.ToBytes ++ exQuestion.ToBytes) := by
  have h : forwardedRequests exHeader [exQuestion] =
      some [exFwdHeader.ToBytes ++ exQuestion.ToBytes] := by decide
  have h0 : (0 : Nat) < ([exQuestion] : List Question).length := by decide
  refine ⟨h, ?_⟩
  have hx := (C7_forwarded_request_shape exHeader [exQuestion] _ h).2 0 h0
  exact hx

/-- Witness for C8 on a one-question, one-answer exchange. -/
theorem C8_count_invariant_witness :
    handleSuccess exMessage [exReply] 3 =
      some (exMergedHeader, [exQuestion], [exAnswer],
        exMergedHeader.ToBytes ++ Question.ToBytes exQuestion ++ Answer.ToBytes exAnswer) ∧
    (exMergedHeader.QuestionCount = ([exQuestion] : List Question).length ∧
     exMergedHeader.AnswerRecordCount = ([exAnswer] : List Answer).length ∧
     exMergedHeader.ToBytes ++ Question.ToBytes exQuestion ++ Answer.ToBytes exAnswer =
       exMergedHeader.ToBytes ++ ([exQuestion] : List Question).flatMap Question.ToBytes ++
         ([exAnswer] : List Answer).flatMap Answer.ToBytes ∧
     [exQuestion] = parsedQuestions ([exReply].take exMessage.Question.length) 3 ∧
     [exAnswer] = parsedAnswers ([exReply].take exMessage.Question.length) 3) := by
  have h : handleSuccess exMessage [exReply] 3 =
      some (exMergedHeader, [exQuestion], [exAnswer],
        exMergedHeader.ToBytes ++ Question.ToBytes exQuestion ++ Answer.ToBytes exAnswer) := by
    decide
  exact ⟨h, C8_count_invariant exMessage [exReply] 3 _ _ _ _ h (by decide) (by decide)⟩

/-- Witness for C9: authority/additional counts 3 and 4 of the inbound
header survive into the merged reply header. -/
theorem C9_untouched_fields_witness :
    handleSuccess exMessage [exReply] 3 =
      some (exMergedHeader, [exQuestion], [exAnswer],
        exMergedHeader.ToBytes ++ Question.ToBytes exQuestion ++ Answer.ToBytes exAnswer) ∧
    (exMergedHeader.ID = exMessage.Header.ID ∧
     exMergedHeader.OpCode = exMessage.Header.OpCode ∧
     exMergedHeader.AuthorativeAnswer = exMessage.Header.AuthorativeAnswer ∧
     exMergedHeader.Truncation = exMessage.Header.Truncation ∧
     exMergedHeader.RecursionDesired = exMessage.Header.RecursionDesired ∧
     exMergedHeader.RecursionAvailable = exMessage.Header.RecursionAvailable ∧
     exMergedHeader.Reserved = exMessage.Header.Reserved ∧
     exMergedHeader.AuthorativeRecordCount = exMessage.Header.AuthorativeRecordCount ∧
     exMergedHeader.AdditionalRecordCount = exMessage.Header.AdditionalRecordCount) := by
  have h : handleSuccess exMessage [exReply] 3 =
      some (exMergedHeader, [exQuestion], [exAnswer],
        exMergedHeader.ToBytes ++ Question.ToBytes exQuestion ++ Answer.ToBytes exAnswer) := by
    decide
  exact ⟨h, C9_untouched_fields exMessage [exReply] 3 _ _ _ _ h⟩
